import Mathlib

/-
Shallow embedding of the async-file library (davetemplin/async-file).

The library wraps Node.js filesystem callbacks in promises.  The pieces with
actual logic, and the subject of the claims, are:

  * `mkdirp` / `createDirectory`  (index.ts, current version): recursive
    directory creation driven by the error code of `fs.mkdir`;
  * `exists`: an `fs.lstat` probe mapping success to `true`, the ENOENT code
    to `false`, and every other error to a rejection;
  * `del`: a promise wrapper around the external recursive-delete utility
    `rimraf`;
  * `writeTextFile`: default filling plus dispatch between `fs.appendFile`
    and `fs.writeFile` on the first character of the flag string;
  * `promisify` (current version) and `thunk` (older version of index.ts):
    the callback-to-promise adapters;
  * `access`: a wrapper that resolves a boolean and never rejects.

Filesystem model: a rooted tree.  Directories carry a `ro` flag meaning the
directory lacks write permission, so creating an entry inside it fails with
the EACCES code; metadata queries are not affected by `ro`.  Symbolic links
are modelled only in their dangling form (link entry present, target
missing), which is the form the claims mention; following such a link yields
the ENOENT code.  Paths are lists of segment names, already resolved to an
absolute form, so the `pathutil.resolve` call of the source is the identity
and `pathutil.dirname` is `List.dropLast`.  Directory permission bits beyond
the `ro` flag are not modelled: created directories are writable, matching
the default creation mode 0o777 that the source passes to `fs.mkdir`; the
`mode` argument, which the source merely forwards, is therefore dropped.
-/

namespace AsyncFile

/-- Platform error codes distinguished by the library: the branches of
`mkdirp` and `exists` test ENOENT, creation can report EEXIST, path
resolution through a file reports ENOTDIR, and EACCES stands for the
permission failures the spec groups under Other. -/
inductive ErrCode where
  | ENOENT
  | EEXIST
  | ENOTDIR
  | EACCES
deriving DecidableEq

/-- Errors surfaced by the library: a platform error carrying a code, or the
error value `new Error(path + " is already a file")` synthesized by `mkdirp`
when the target path is occupied by a non-directory.  `noFuel` is the
embedding artifact for the fuel-indexed recursion of `mkdirp`; it is never
produced with the fuel `createDirectory` supplies. -/
inductive FsError where
  | code (c : ErrCode)
  | alreadyFile (path : List String)
  | noFuel
deriving DecidableEq

/-- The three kinds of filesystem entries in the model. -/
inductive NodeKind where
  | dir
  | file
  | symlink
deriving DecidableEq

/-- Outcome of a promise: resolved with a value, rejected with an error, or
never settled. -/
inductive POutcome (α : Type) where
  | resolved (a : α)
  | rejected (e : FsError)
  | pending
deriving DecidableEq

/-- A filesystem tree.  `dir ro cs` is a directory with named children `cs`;
`ro = true` means the directory lacks write permission (creating inside it
fails with the EACCES code).  `symlink` is a dangling symbolic link. -/
inductive Node where
  | dir (ro : Bool) (children : List (String × Node))
  | file
  | symlink

/-- Find the child of a directory with the given name. -/
def lookupChild : List (String × Node) → String → Option Node
  | [], _ => none
  | (k, v) :: rest, n => if k = n then some v else lookupChild rest n

/-- Replace the child with the given name, or append it if absent. -/
def setChild : List (String × Node) → String → Node → List (String × Node)
  | [], n, nd => [(n, nd)]
  | (k, v) :: rest, n, nd =>
    if k = n then (n, nd) :: rest else (k, v) :: setChild rest n nd

/-- Drop every child with the given name. -/
def removeChild : List (String × Node) → String → List (String × Node)
  | [], _ => []
  | (k, v) :: rest, n =>
    if k = n then removeChild rest n else (k, v) :: removeChild rest n

/-- Path resolution without following a terminal symbolic link: the walk done
by `fs.lstat` and by the path-prefix traversal of every other call.  A
missing segment gives the ENOENT code, a file met mid-path gives the ENOTDIR
code, and a (dangling) link met mid-path gives the ENOENT code of its
missing target. -/
def resolveNoFollow : Node → List String → Except ErrCode Node
  | nd, [] => .ok nd
  | .dir _ cs, s :: rest =>
    match lookupChild cs s with
    | some c => resolveNoFollow c rest
    | none => .error .ENOENT
  | .file, _ :: _ => .error .ENOTDIR
  | .symlink, _ :: _ => .error .ENOENT

/-- Kind of an entry. -/
def nodeKind : Node → NodeKind
  | .dir _ _ => .dir
  | .file => .file
  | .symlink => .symlink

/-- The entry an existing path denotes, if any. -/
def entryAt (root : Node) (p : List String) : Option Node :=
  match resolveNoFollow root p with
  | .ok nd => some nd
  | .error _ => none

/-- Link-level metadata outcome reduced to the entry kind. -/
def kindAt (root : Node) (p : List String) : Except ErrCode NodeKind :=
  match resolveNoFollow root p with
  | .ok nd => .ok (nodeKind nd)
  | .error e => .error e

/-- Whether the path denotes an existing directory. -/
def isDirAt (root : Node) (p : List String) : Bool :=
  match resolveNoFollow root p with
  | .ok (.dir _ _) => true
  | _ => false

/-- The `fs.stat` query reduced to what `mkdirp` reads from it: the entry
kind, following a terminal symbolic link (so a dangling link reports the
ENOENT code of its missing target). -/
def statKind (root : Node) (p : List String) : Except ErrCode NodeKind :=
  match resolveNoFollow root p with
  | .error e => .error e
  | .ok .symlink => .error .ENOENT
  | .ok nd => .ok (nodeKind nd)

/-- The `fs.mkdir` primitive: walk the parent chain (errors as in path
resolution), report the EEXIST code when the target already exists, the
EACCES code when the parent directory lacks write permission, and otherwise
create an empty writable directory at the target. -/
def mkdirNode : Node → List String → Except ErrCode Node
  | _, [] => .error .EEXIST
  | .dir ro cs, s :: rest =>
    match rest with
    | [] =>
      match lookupChild cs s with
      | some _ => .error .EEXIST
      | none =>
        if ro then .error .EACCES
        else .ok (.dir ro (setChild cs s (.dir false [])))
    | _ :: _ =>
      match lookupChild cs s with
      | some c =>
        match mkdirNode c rest with
        | .ok c' => .ok (.dir ro (setChild cs s c'))
        | .error e => .error e
      | none => .error .ENOENT
  | .file, _ :: _ => .error .ENOTDIR
  | .symlink, _ :: _ => .error .ENOENT

/-- The recursive worker `mkdirp` of index.ts, with the in-place mutation of
the filesystem made explicit as a returned tree and the `done(err)` callback
as the optional error component.  Structure of the source: try `fs.mkdir`;
on success report success; on the ENOENT code recursively ensure the parent
(`pathutil.dirname`, here `List.dropLast`) and then retry the full call on
`path`; on any other error query `fs.stat` and report the error of that
query, or
success when the entry is a directory, or the synthesized conflict error
otherwise.  The fuel argument makes the re-entrant retry structurally
terminating; `createDirectory` supplies enough fuel for every run. -/
def mkdirp : Nat → Node → List String → Node × Option FsError
  | 0, root, _ => (root, some .noFuel)
  | fuel + 1, root, p =>
    match mkdirNode root p with
    | .ok root' => (root', none)
    | .error .ENOENT =>
      match mkdirp fuel root p.dropLast with
      | (root₁, none) => mkdirp fuel root₁ p
      | (root₁, some e) => (root₁, some e)
    | .error _ =>
      match statKind root p with
      | .error e2 => (root, some (.code e2))
      | .ok .dir => (root, none)
      | .ok _ => (root, some (.alreadyFile p))

/-- The callback adapter shared by the exported `createDirectory` and `del`:
the promise resolves when the callback reports no error and rejects with the
reported error otherwise. -/
def settle : Option FsError → POutcome Unit
  | none => .resolved ()
  | some e => .rejected e

/-- The exported `createDirectory` (also exported as `mkdirp`): run the
worker and settle the promise from its callback. -/
def createDirectory (root : Node) (p : List String) : Node × POutcome Unit :=
  ((mkdirp (2 * p.length + 2) root p).1, settle (mkdirp (2 * p.length + 2) root p).2)

/-- Whether every segment of the path can be made a directory: each existing
segment is already a directory, and the first missing segment would be
created inside a directory that grants write permission (segments below it
are then created inside fresh writable directories). -/
def creatable : Node → List String → Bool
  | .dir _ _, [] => true
  | .dir ro cs, s :: rest =>
    match lookupChild cs s with
    | some c => creatable c rest
    | none => !ro
  | _, _ => false

/-- The exported `exists` of index.ts (current version; the name `exists` is
a Lean keywordish tactic name, hence `existsPath`): probe with `fs.lstat`,
resolve `true` on success, resolve `false` on the ENOENT code, and reject
with any other error. -/
def existsPath (root : Node) (p : List String) : POutcome Bool :=
  match resolveNoFollow root p with
  | .ok _ => .resolved true
  | .error .ENOENT => .resolved false
  | .error e => .rejected (.code e)

/-- Remove the entry at the path, and with it the whole subtree below; a
missing path leaves the tree unchanged. -/
def removeAt : Node → List String → Node
  | root, [] => root
  | .dir ro cs, s :: rest =>
    match rest with
    | [] => .dir ro (removeChild cs s)
    | _ :: _ =>
      match lookupChild cs s with
      | some c => .dir ro (setChild cs s (removeAt c rest))
      | none => .dir ro cs
  | root, _ :: _ => root

/-- Modelled from the spec: the external recursive-delete utility (`rimraf`),
which is a dependency and not part of the repository sources.  Per spec
sections 4.3 and 6 it removes the path and, for a directory, everything
beneath it, in one operation, returning success or an error; its tree-walk
and error handling are not redefined by the repository, so the model gives
the successful removal behavior (removal of the subtree, success, and a
missing path tolerated). -/
def removeRecursively (root : Node) (p : List String) : Node × Option FsError :=
  (removeAt root p, none)

/-- The exported `delete` (function `del` of index.ts, current version): wrap
the recursive-delete utility in a promise via the shared callback adapter. -/
def del (root : Node) (p : List String) : Node × POutcome Unit :=
  ((removeRecursively root p).1, settle (removeRecursively root p).2)

/-- The `access` wrapper of the newer API, abstracted over the outcome of
the underlying `fs.access` permission check: the executor only ever calls
`resolve`, with `true` when the check reports no error and `false`
otherwise. -/
def access (err : Option FsError) : POutcome Bool :=
  match err with
  | none => .resolved true
  | some _ => .resolved false

/-- Settlement behavior of the `promisify` adapter (index.ts, current
version), abstracted over the callback invocation: `err` is the error the
underlying primitive reports, `result` its plain success value, and
`resolverOut` is present when a resolver was supplied, carrying the record
the resolver assembles.  The source rejects on an error, resolves with the
resolver output when a resolver was supplied, and resolves with the plain
result otherwise. -/
def promisify (α : Type) (resolverOut : Option α) (err : Option FsError) (result : α) :
    POutcome α :=
  match err with
  | some e => .rejected e
  | none =>
    match resolverOut with
    | some v => .resolved v
    | none => .resolved result

/-- Settlement behavior of the `thunk` adapter (older version of index.ts),
same abstraction as for `promisify`.  On success with a resolver supplied
the source evaluates `resolver.apply(context, arguments)` but never passes
the value to `resolve`, so the promise is never settled. -/
def thunk (α : Type) (resolverOut : Option α) (err : Option FsError) (result : α) :
    POutcome α :=
  match err with
  | some e => .rejected e
  | none =>
    match resolverOut with
    | some _ => .pending
    | none => .resolved result

/-- A JavaScript string argument that may be `undefined` or `null`. -/
inductive JsStr where
  | undef
  | null
  | str (s : String)
deriving DecidableEq

/-- Which primitive `writeTextFile` dispatches to. -/
inductive WriteDispatch where
  | appendFile
  | writeFile
deriving DecidableEq

/-- The call `writeTextFile` makes: the chosen primitive together with the
options record `{encoding, flags, mode}` it passes. -/
structure WriteCall where
  op : WriteDispatch
  encoding : JsStr
  flags : String
  mode : JsStr
deriving DecidableEq

/-- The exported `writeTextFile` (index.ts, current version): default the
encoding to utf8 when it is `undefined`, default the flags to the write mode
when they are `undefined` or `null`, build the options record, and dispatch
to `fs.appendFile` exactly when the first character of the flag string is
the append letter, else to `fs.writeFile`.  (Indexing position 0 of an empty
flag string yields `undefined` in the source, which is not the append
letter, hence `String.data.head?` here.) -/
def writeTextFile (encoding : JsStr) (flags : JsStr) (mode : JsStr) : WriteCall :=
  let enc := match encoding with
    | .undef => JsStr.str "utf8"
    | e => e
  let fl := match flags with
    | .undef => "w"
    | .null => "w"
    | .str s => s
  { op := if fl.data.head? = some 'a' then .appendFile else .writeFile
    encoding := enc
    flags := fl
    mode := mode }

/-! Lemmas about the child-list operations. -/

theorem lookupChild_setChild_self (cs : List (String × Node)) (n : String) (nd : Node) :
    lookupChild (setChild cs n nd) n = some nd := by
  induction cs with
  | nil => simp [setChild, lookupChild]
  | cons kv rest ih =>
    obtain ⟨k, v⟩ := kv
    by_cases h : k = n
    · simp [setChild, h, lookupChild]
    · simp [setChild, h, lookupChild, ih]

theorem lookupChild_setChild_ne (cs : List (String × Node)) (n m : String) (nd : Node)
    (h : m ≠ n) : lookupChild (setChild cs n nd) m = lookupChild cs m := by
  induction cs with
  | nil => simp [setChild, lookupChild, Ne.symm h]
  | cons kv rest ih =>
    obtain ⟨k, v⟩ := kv
    by_cases hk : k = n
    · subst hk
      simp [setChild, lookupChild, Ne.symm h]
    · simp [setChild, hk, lookupChild, ih]

theorem lookupChild_removeChild_self (cs : List (String × Node)) (n : String) :
    lookupChild (removeChild cs n) n = none := by
  induction cs with
  | nil => simp [removeChild, lookupChild]
  | cons kv rest ih =>
    obtain ⟨k, v⟩ := kv
    by_cases h : k = n
    · simp [removeChild, h, ih]
    · simp [removeChild, h, lookupChild, ih]

theorem lookupChild_removeChild_ne (cs : List (String × Node)) (n m : String)
    (h : m ≠ n) : lookupChild (removeChild cs n) m = lookupChild cs m := by
  induction cs with
  | nil => simp [removeChild]
  | cons kv rest ih =>
    obtain ⟨k, v⟩ := kv
    by_cases hk : k = n
    · subst hk
      simp [removeChild, lookupChild, Ne.symm h, ih]
    · simp [removeChild, hk, lookupChild, ih]

/-! Lemmas about path resolution. -/

theorem resolve_append (p r : List String) (root : Node) :
    resolveNoFollow root (p ++ r) =
      match resolveNoFollow root p with
      | .ok nd => resolveNoFollow nd r
      | .error e => .error e := by
  induction p generalizing root with
  | nil => simp [resolveNoFollow]
  | cons s p' ih =>
    cases root with
    | dir ro cs =>
      simp only [List.cons_append, resolveNoFollow]
      cases h : lookupChild cs s with
      | some c => simp [ih]
      | none => simp
    | file => simp [resolveNoFollow]
    | symlink => simp [resolveNoFollow]

theorem isDirAt_iff (root : Node) (p : List String) :
    isDirAt root p = true ↔ ∃ ro cs, resolveNoFollow root p = .ok (.dir ro cs) := by
  unfold isDirAt
  cases h : resolveNoFollow root p with
  | ok nd => cases nd <;> simp
  | error e => simp

theorem isDirAt_of_append (root : Node) (q r : List String) (ro : Bool)
    (cs : List (String × Node)) (h : resolveNoFollow root (q ++ r) = .ok (.dir ro cs)) :
    isDirAt root q = true := by
  rw [resolve_append] at h
  cases hq : resolveNoFollow root q with
  | ok nd =>
    rw [hq] at h
    cases nd with
    | dir ro2 cs2 => simp [isDirAt, hq]
    | file =>
      cases r with
      | nil => simp [resolveNoFollow] at h
      | cons t ts => simp [resolveNoFollow] at h
    | symlink =>
      cases r with
      | nil => simp [resolveNoFollow] at h
      | cons t ts => simp [resolveNoFollow] at h
  | error e => rw [hq] at h; simp at h

theorem entryAt_append_none (root : Node) (p r : List String)
    (h : entryAt root p = none) : entryAt root (p ++ r) = none := by
  unfold entryAt at h ⊢
  rw [resolve_append]
  cases hres : resolveNoFollow root p with
  | ok nd => rw [hres] at h; simp at h
  | error e => simp

/-! Lemmas about the creation primitive. -/

theorem mkdirNode_cons_cons (ro : Bool) (cs : List (String × Node)) (s : String)
    (rest : List String) (hrest : rest ≠ []) :
    mkdirNode (.dir ro cs) (s :: rest) =
      match lookupChild cs s with
      | some c =>
        match mkdirNode c rest with
        | .ok c' => .ok (.dir ro (setChild cs s c'))
        | .error e => .error e
      | none => .error .ENOENT := by
  cases rest with
  | nil => exact absurd rfl hrest
  | cons t rs => rfl

theorem mkdirNode_of_resolved (root : Node) (p : List String) (nd : Node)
    (h : resolveNoFollow root p = .ok nd) : mkdirNode root p = .error .EEXIST := by
  induction p generalizing root with
  | nil => simp [mkdirNode]
  | cons s rest ih =>
    cases root with
    | dir ro cs =>
      cases hc : lookupChild cs s with
      | some c =>
        have h' : resolveNoFollow c rest = .ok nd := by
          simpa [resolveNoFollow, hc] using h
        cases rest with
        | nil => simp [mkdirNode, hc]
        | cons t rs => simp [mkdirNode, hc, ih c h']
      | none => simp [resolveNoFollow, hc] at h
    | file => simp [resolveNoFollow] at h
    | symlink => simp [resolveNoFollow] at h

theorem mkdirNode_of_enotdir (root : Node) (p : List String)
    (h : resolveNoFollow root p = .error .ENOTDIR) : mkdirNode root p = .error .ENOTDIR := by
  induction p generalizing root with
  | nil => simp [resolveNoFollow] at h
  | cons s rest ih =>
    cases root with
    | dir ro cs =>
      cases hc : lookupChild cs s with
      | some c =>
        have h' : resolveNoFollow c rest = .error .ENOTDIR := by
          simpa [resolveNoFollow, hc] using h
        cases rest with
        | nil => simp [resolveNoFollow] at h'
        | cons t rs => simp [mkdirNode, hc, ih c h']
      | none => simp [resolveNoFollow, hc] at h
    | file =>
      simp [mkdirNode]
    | symlink => simp [resolveNoFollow] at h

theorem mkdirNode_eacces_resolve (root : Node) (p : List String)
    (h : mkdirNode root p = .error .EACCES) : resolveNoFollow root p = .error .ENOENT := by
  induction p generalizing root with
  | nil => simp [mkdirNode] at h
  | cons s rest ih =>
    cases root with
    | dir ro cs =>
      cases hc : lookupChild cs s with
      | some c =>
        cases rest with
        | nil => simp [mkdirNode, hc] at h
        | cons t rs =>
          have h' : mkdirNode c (t :: rs) = .error .EACCES := by
            revert h
            simp only [mkdirNode, hc]
            cases hm : mkdirNode c (t :: rs) with
            | ok c' => simp
            | error e => simp_all
          simp [resolveNoFollow, hc, ih c h']
      | none =>
        cases rest with
        | nil => simp [resolveNoFollow, hc]
        | cons t rs => simp [mkdirNode, hc] at h
    | file => simp [mkdirNode] at h
    | symlink => simp [mkdirNode] at h

theorem mkdirNode_enoent_parent (root : Node) (p : List String)
    (hc : creatable root p = true) (h : mkdirNode root p = .error .ENOENT) :
    resolveNoFollow root p.dropLast = .error .ENOENT := by
  induction p generalizing root with
  | nil => simp [mkdirNode] at h
  | cons s rest ih =>
    cases root with
    | dir ro cs =>
      cases hl : lookupChild cs s with
      | some c =>
        cases rest with
        | nil => simp [mkdirNode, hl] at h
        | cons t rs =>
          have h' : mkdirNode c (t :: rs) = .error .ENOENT := by
            revert h
            simp only [mkdirNode, hl]
            cases hm : mkdirNode c (t :: rs) with
            | ok c' => simp
            | error e => simp_all
          have hc' : creatable c (t :: rs) = true := by
            simpa [creatable, hl] using hc
          have := ih c hc' h'
          simpa [List.dropLast, resolveNoFollow, hl] using this
      | none =>
        cases rest with
        | nil =>
          have hro : ro = false := by simpa [creatable, hl] using hc
          simp [mkdirNode, hl, hro] at h
        | cons t rs =>
          simp [List.dropLast, resolveNoFollow, hl]
    | file => simp [mkdirNode] at h
    | symlink => simp [creatable] at hc

theorem mkdirNode_ok_dirs (root : Node) (p : List String) (root' : Node)
    (h : mkdirNode root p = .ok root') :
    ∀ q r, q ++ r = p → isDirAt root' q = true := by
  induction p generalizing root root' with
  | nil => simp [mkdirNode] at h
  | cons s rest ih =>
    intro q r hqr
    cases root with
    | dir ro cs =>
      cases rest with
      | nil =>
        cases hl : lookupChild cs s with
        | some c => simp [mkdirNode, hl] at h
        | none =>
          cases hro : ro with
          | true => simp [mkdirNode, hl, hro] at h
          | false =>
            have hr' : root' = .dir false (setChild cs s (.dir false [])) := by
              have := h
              simp [mkdirNode, hl, hro] at this
              exact this.symm
            subst hr'
            cases q with
            | nil => simp [isDirAt, resolveNoFollow]
            | cons a q' =>
              have ha := hqr
              simp [List.cons_append] at ha
              obtain ⟨rfl, rfl, rfl⟩ := ha
              simp [isDirAt, resolveNoFollow, lookupChild_setChild_self]
      | cons t rs =>
        cases hl : lookupChild cs s with
        | some c =>
          cases hm : mkdirNode c (t :: rs) with
          | ok c' =>
            have hr' : root' = .dir ro (setChild cs s c') := by
              have := h
              simp [mkdirNode, hl, hm] at this
              exact this.symm
            subst hr'
            cases q with
            | nil => simp [isDirAt, resolveNoFollow]
            | cons a q' =>
              have ha : a = s ∧ q' ++ r = t :: rs := by
                have := hqr
                simp [List.cons_append] at this
                exact ⟨this.1, this.2⟩
              obtain ⟨rfl, hqr'⟩ := ha
              have := ih c c' hm q' r hqr'
              simpa [isDirAt, resolveNoFollow, lookupChild_setChild_self] using this
          | error e => simp [mkdirNode, hl, hm] at h
        | none => simp [mkdirNode, hl] at h
    | file => simp [mkdirNode] at h
    | symlink => simp [mkdirNode] at h

theorem mkdirNode_ok_fresh (root : Node) (p : List String) (root' : Node)
    (h : mkdirNode root p = .ok root') :
    resolveNoFollow root' p = .ok (.dir false []) := by
  induction p generalizing root root' with
  | nil => simp [mkdirNode] at h
  | cons s rest ih =>
    cases root with
    | dir ro cs =>
      cases rest with
      | nil =>
        cases hl : lookupChild cs s with
        | some c => simp [mkdirNode, hl] at h
        | none =>
          cases hro : ro with
          | true => simp [mkdirNode, hl, hro] at h
          | false =>
            have hr' : root' = .dir false (setChild cs s (.dir false [])) := by
              have := h
              simp [mkdirNode, hl, hro] at this
              exact this.symm
            subst hr'
            simp [resolveNoFollow, lookupChild_setChild_self]
      | cons t rs =>
        cases hl : lookupChild cs s with
        | some c =>
          cases hm : mkdirNode c (t :: rs) with
          | ok c' =>
            have hr' : root' = .dir ro (setChild cs s c') := by
              have := h
              simp [mkdirNode, hl, hm] at this
              exact this.symm
            subst hr'
            simpa [resolveNoFollow, lookupChild_setChild_self] using ih c c' hm
          | error e => simp [mkdirNode, hl, hm] at h
        | none => simp [mkdirNode, hl] at h
    | file => simp [mkdirNode] at h
    | symlink => simp [mkdirNode] at h

theorem mkdirNode_fresh_parent (root : Node) (r : List String)
    (h : resolveNoFollow root r = .ok (.dir false [])) (n : String) :
    ∃ root', mkdirNode root (r ++ [n]) = .ok root' := by
  induction r generalizing root with
  | nil =>
    have hr : root = .dir false [] := by simpa [resolveNoFollow] using h
    subst hr
    exact ⟨.dir false (setChild [] n (.dir false [])), rfl⟩
  | cons s r' ih =>
    cases root with
    | dir ro cs =>
      cases hl : lookupChild cs s with
      | some c =>
        have h' : resolveNoFollow c r' = .ok (.dir false []) := by
          simpa [resolveNoFollow, hl] using h
        obtain ⟨c', hc'⟩ := ih c h'
        refine ⟨.dir ro (setChild cs s c'), ?_⟩
        rw [List.cons_append, mkdirNode_cons_cons ro cs s (r' ++ [n]) (by simp), hl]
        simp [hc']
      | none => simp [resolveNoFollow, hl] at h
    | file => simp [resolveNoFollow] at h
    | symlink => simp [resolveNoFollow] at h

theorem mkdirNode_err_creatable (root : Node) (p : List String) (e : ErrCode)
    (hc : creatable root p = true) (h : mkdirNode root p = .error e) :
    e = .ENOENT ∨ (e = .EEXIST ∧ isDirAt root p = true) := by
  induction p generalizing root e with
  | nil =>
    cases root with
    | dir ro cs =>
      refine Or.inr ⟨?_, ?_⟩
      · simpa [mkdirNode] using h.symm
      · simp [isDirAt, resolveNoFollow]
    | file => simp [creatable] at hc
    | symlink => simp [creatable] at hc
  | cons s rest ih =>
    cases root with
    | dir ro cs =>
      cases hl : lookupChild cs s with
      | some c =>
        have hc' := hc
        simp only [creatable, hl] at hc'
        cases rest with
        | nil =>
          have he : e = .EEXIST := by simpa [mkdirNode, hl] using h.symm
          subst he
          refine Or.inr ⟨rfl, ?_⟩
          have hcd : ∃ ro2 cs2, c = .dir ro2 cs2 := by
            cases c with
            | dir ro2 cs2 => exact ⟨ro2, cs2, rfl⟩
            | file => simp [creatable] at hc'
            | symlink => simp [creatable] at hc'
          obtain ⟨ro2, cs2, rfl⟩ := hcd
          simp [isDirAt, resolveNoFollow, hl]
        | cons t rs =>
          have h' : mkdirNode c (t :: rs) = .error e := by
            revert h
            simp only [mkdirNode, hl]
            cases hm : mkdirNode c (t :: rs) with
            | ok c' => simp
            | error e2 => simp_all
          rcases ih c e hc' h' with h1 | ⟨h1, h2⟩
          · exact Or.inl h1
          · refine Or.inr ⟨h1, ?_⟩
            simpa [isDirAt, resolveNoFollow, hl] using h2
      | none =>
        have hro : ro = false := by simpa [creatable, hl] using hc
        cases rest with
        | nil => simp [mkdirNode, hl, hro] at h
        | cons t rs =>
          refine Or.inl ?_
          simpa [mkdirNode, hl] using h.symm
    | file => simp [creatable] at hc
    | symlink => simp [creatable] at hc

theorem creatable_dropLast (root : Node) (p : List String)
    (h : creatable root p = true) : creatable root p.dropLast = true := by
  induction p generalizing root with
  | nil => simpa using h
  | cons s rest ih =>
    cases root with
    | dir ro cs =>
      cases rest with
      | nil => simp [creatable]
      | cons t rs =>
        cases hl : lookupChild cs s with
        | some c =>
          have h' : creatable c (t :: rs) = true := by simpa [creatable, hl] using h
          simpa [List.dropLast, creatable, hl] using ih c h'
        | none =>
          have hro : ro = false := by simpa [creatable, hl] using h
          simp [List.dropLast, creatable, hl, hro]
    | file => simp [creatable] at h
    | symlink => simp [creatable] at h

/-! Lemmas about the recursive worker and the exported createDirectory. -/

theorem mkdirp_ok_step (f : Nat) (root : Node) (p : List String) (root' : Node)
    (hmk : mkdirNode root p = .ok root') : mkdirp (f + 1) root p = (root', none) := by
  simp [mkdirp, hmk]

theorem mkdirp_enoent_step (f : Nat) (root : Node) (p : List String)
    (hmk : mkdirNode root p = .error .ENOENT) :
    mkdirp (f + 1) root p =
      match mkdirp f root p.dropLast with
      | (root₁, none) => mkdirp f root₁ p
      | (root₁, some e) => (root₁, some e) := by
  simp [mkdirp, hmk]

theorem mkdirp_stat_step (f : Nat) (root : Node) (p : List String) (e : ErrCode)
    (he : e ≠ ErrCode.ENOENT) (hmk : mkdirNode root p = .error e) :
    mkdirp (f + 1) root p =
      match statKind root p with
      | .error e2 => (root, some (.code e2))
      | .ok .dir => (root, none)
      | .ok _ => (root, some (.alreadyFile p)) := by
  cases e with
  | ENOENT => exact absurd rfl he
  | EEXIST => simp [mkdirp, hmk]
  | ENOTDIR => simp [mkdirp, hmk]
  | EACCES => simp [mkdirp, hmk]

theorem mkdirp_creatable (fuel : Nat) :
    ∀ (p : List String) (root : Node), creatable root p = true → 2 * p.length + 1 ≤ fuel →
      ∃ root', mkdirp fuel root p = (root', none) ∧
        (∀ q r, q ++ r = p → isDirAt root' q = true) ∧
        (resolveNoFollow root p = .error .ENOENT →
          resolveNoFollow root' p = .ok (.dir false [])) := by
  induction fuel with
  | zero =>
    intro p root _ hf
    omega
  | succ f ih =>
    intro p root hc hf
    cases hmk : mkdirNode root p with
    | ok root' =>
      exact ⟨root', mkdirp_ok_step f root p root' hmk,
        mkdirNode_ok_dirs root p root' hmk,
        fun _ => mkdirNode_ok_fresh root p root' hmk⟩
    | error e =>
      by_cases he : e = ErrCode.ENOENT
      · subst he
        have hp : p ≠ [] := by
          intro hnil
          subst hnil
          simp [mkdirNode] at hmk
        have hcd : creatable root p.dropLast = true := creatable_dropLast root p hc
        have hlen : 2 * p.dropLast.length + 1 ≤ f := by
          have h1 : p.dropLast.length = p.length - 1 := List.length_dropLast p
          have h2 : 0 < p.length := List.length_pos.mpr hp
          omega
        obtain ⟨root₁, h₁, _hdirs₁, hfresh₁⟩ := ih p.dropLast root hcd hlen
        have hpar : resolveNoFollow root p.dropLast = .error .ENOENT :=
          mkdirNode_enoent_parent root p hc hmk
        have hf₁ : resolveNoFollow root₁ p.dropLast = .ok (.dir false []) := hfresh₁ hpar
        obtain ⟨root₂, h₂⟩ := mkdirNode_fresh_parent root₁ p.dropLast hf₁ (p.getLast hp)
        rw [List.dropLast_append_getLast hp] at h₂
        obtain ⟨f₂, rfl⟩ : ∃ f₂, f = f₂ + 1 := by
          have h2 : 0 < p.length := List.length_pos.mpr hp
          exact ⟨f - 1, by omega⟩
        refine ⟨root₂, ?_, mkdirNode_ok_dirs root₁ p root₂ h₂,
          fun _ => mkdirNode_ok_fresh root₁ p root₂ h₂⟩
        rw [mkdirp_enoent_step (f₂ + 1) root p hmk, h₁]
        exact mkdirp_ok_step f₂ root₁ p root₂ h₂
      · rcases mkdirNode_err_creatable root p e hc hmk with h8 | ⟨he2, hdir⟩
        · exact absurd h8 he
        subst he2
        obtain ⟨ro2, cs2, hres⟩ := (isDirAt_iff root p).mp hdir
        refine ⟨root, ?_, ?_, ?_⟩
        · rw [mkdirp_stat_step f root p .EEXIST (by decide) hmk]
          simp [statKind, hres, nodeKind]
        · intro q r hqr
          subst hqr
          exact isDirAt_of_append root q r ro2 cs2 hres
        · intro habs
          rw [hres] at habs
          simp at habs

theorem mkdirp_ok_isDir (fuel : Nat) :
    ∀ (p : List String) (root root' : Node), mkdirp fuel root p = (root', none) →
      isDirAt root' p = true := by
  induction fuel with
  | zero =>
    intro p root root' h
    simp [mkdirp] at h
  | succ f ih =>
    intro p root root' h
    cases hmk : mkdirNode root p with
    | ok r1 =>
      rw [mkdirp_ok_step f root p r1 hmk] at h
      injection h with h1 h2
      subst h1
      have := mkdirNode_ok_fresh root p r1 hmk
      simp [isDirAt, this]
    | error e =>
      by_cases he : e = ErrCode.ENOENT
      · subst he
        rw [mkdirp_enoent_step f root p hmk] at h
        rcases h₁ : mkdirp f root p.dropLast with ⟨r₁, e₁⟩
        rw [h₁] at h
        cases e₁ with
        | none => exact ih p r₁ root' h
        | some e₂ => simp at h
      · rw [mkdirp_stat_step f root p e he hmk] at h
        cases hs : statKind root p with
        | error e2 => rw [hs] at h; simp at h
        | ok k =>
          rw [hs] at h
          cases k with
          | dir =>
            injection h with h1 h2
            subst h1
            unfold statKind at hs
            cases hres : resolveNoFollow root p with
            | ok nd =>
              rw [hres] at hs
              cases nd with
              | dir ro cs => simp [isDirAt, hres]
              | file => simp [nodeKind] at hs
              | symlink => simp at hs
            | error e3 => rw [hres] at hs; simp at hs
          | file => simp at h
          | symlink => simp at h

theorem mkdirp_idem (fuel fuel' : Nat) (root : Node) (p : List String) (root' : Node)
    (h : mkdirp fuel root p = (root', none)) (hf : 1 ≤ fuel') :
    mkdirp fuel' root' p = (root', none) := by
  have hdir := mkdirp_ok_isDir fuel p root root' h
  obtain ⟨ro, cs, hres⟩ := (isDirAt_iff root' p).mp hdir
  have hmk : mkdirNode root' p = .error .EEXIST :=
    mkdirNode_of_resolved root' p (.dir ro cs) hres
  obtain ⟨f₂, rfl⟩ : ∃ f₂, fuel' = f₂ + 1 := ⟨fuel' - 1, by omega⟩
  rw [mkdirp_stat_step f₂ root' p .EEXIST (by decide) hmk]
  simp [statKind, hres, nodeKind]

theorem createDirectory_resolved_iff (root : Node) (p : List String) (root' : Node) :
    createDirectory root p = (root', POutcome.resolved ()) ↔
      mkdirp (2 * p.length + 2) root p = (root', none) := by
  rcases hm : mkdirp (2 * p.length + 2) root p with ⟨r, e⟩
  cases e with
  | none => simp [createDirectory, hm, settle]
  | some err => simp [createDirectory, hm, settle]

/-! Lemmas about subtree removal. -/

theorem removeAt_gone (p : List String) :
    ∀ root : Node, p ≠ [] → entryAt (removeAt root p) p = none := by
  induction p with
  | nil => intro root h; exact absurd rfl h
  | cons s rest ih =>
    intro root _
    cases root with
    | dir ro cs =>
      cases rest with
      | nil =>
        simp [removeAt, entryAt, resolveNoFollow, lookupChild_removeChild_self]
      | cons t rs =>
        cases hl : lookupChild cs s with
        | some c =>
          have := ih c (by simp)
          simpa [removeAt, hl, entryAt, resolveNoFollow, lookupChild_setChild_self] using this
        | none =>
          simp [removeAt, hl, entryAt, resolveNoFollow]
    | file => simp [removeAt, entryAt, resolveNoFollow]
    | symlink => simp [removeAt, entryAt, resolveNoFollow]

theorem removeAt_frame (p : List String) :
    ∀ (root : Node) (q : List String), (∀ r, p ++ r ≠ q) →
      kindAt (removeAt root p) q = kindAt root q := by
  induction p with
  | nil => intro root q h; cases root <;> rfl
  | cons s rest ih =>
    intro root q h
    cases root with
    | dir ro cs =>
      cases rest with
      | nil =>
        cases q with
        | nil => simp [removeAt, kindAt, resolveNoFollow, nodeKind]
        | cons t q' =>
          by_cases hts : t = s
          · subst hts
            exact absurd rfl (h q')
          · simp [removeAt, kindAt, resolveNoFollow,
              lookupChild_removeChild_ne cs s t (by exact hts)]
      | cons u rs =>
        cases hl : lookupChild cs s with
        | some c =>
          cases q with
          | nil => simp [removeAt, hl, kindAt, resolveNoFollow, nodeKind]
          | cons t q' =>
            by_cases hts : t = s
            · subst hts
              have h' : ∀ r, (u :: rs) ++ r ≠ q' := by
                intro r hr
                exact h r (by simp [hr])
              have := ih c q' h'
              simpa [removeAt, hl, kindAt, resolveNoFollow,
                lookupChild_setChild_self] using this
            · simp [removeAt, hl, kindAt, resolveNoFollow,
                lookupChild_setChild_ne cs s t _ (by exact hts)]
        | none => simp [removeAt, hl]
    | file => simp [removeAt]
    | symlink => simp [removeAt]

/-! Claim theorems. -/

/-- C1: for every path p whose segments can all be created (every existing
segment a directory, missing segments creatable), createDirectory succeeds
and afterwards p and every ancestor of p exist as directories; and when the
initial creation call fails with the ENOENT code, mkdirp recursively ensures
the parent directory (dirname, that is dropLast) first and then retries the
full creation of p. -/
theorem createDirectory_creatable_ensures (root : Node) (p : List String)
    (h : creatable root p = true) :
    (∃ root', createDirectory root p = (root', POutcome.resolved ()) ∧
      ∀ q r, q ++ r = p → isDirAt root' q = true) ∧
    (∀ (fuel : Nat) (root₀ : Node), mkdirNode root₀ p = .error .ENOENT →
      mkdirp (fuel + 1) root₀ p =
        match mkdirp fuel root₀ p.dropLast with
        | (root₁, none) => mkdirp fuel root₁ p
        | (root₁, some e) => (root₁, some e)) := by
  constructor
  · obtain ⟨root', h1, h2, _⟩ := mkdirp_creatable (2 * p.length + 2) p root h (by omega)
    exact ⟨root', (createDirectory_resolved_iff root p root').mpr h1, h2⟩
  · intro fuel root₀ hmk
    exact mkdirp_enoent_step fuel root₀ p hmk

/-- C1 witness: on an empty writable root, creating a/b succeeds and leaves
the whole chain as directories. -/
theorem createDirectory_creatable_ensures_witness :
    creatable (Node.dir false []) ["a", "b"] = true ∧
    ((∃ root', createDirectory (Node.dir false []) ["a", "b"] =
        (root', POutcome.resolved ()) ∧
      ∀ q r, q ++ r = ["a", "b"] → isDirAt root' q = true)) :=
  ⟨rfl, (createDirectory_creatable_ensures (Node.dir false []) ["a", "b"] rfl).1⟩

/-- C2 counterexample: on a read-only root, creating the missing entry x
fails the creation call with the EACCES code, yet createDirectory surfaces
the ENOENT code coming from the follow-up stat, not the original error, so
the error is not propagated unchanged. -/
theorem createDirectory_eacces_misreported :
    mkdirNode (Node.dir true []) ["x"] = .error .EACCES ∧
    createDirectory (Node.dir true []) ["x"] =
      (Node.dir true [], POutcome.rejected (.code .ENOENT)) ∧
    FsError.code .ENOENT ≠ FsError.code .EACCES :=
  ⟨rfl, rfl, by decide⟩

/-- C2 amended: a creation failure with the EACCES code is not surfaced
unchanged; mkdirp falls into the metadata re-check, the target is missing
(EACCES from creation implies the target did not exist), so the caller
receives the ENOENT code of that stat call, with the tree unchanged. -/
theorem createDirectory_eacces_surfaces_enoent (root : Node) (p : List String)
    (h : mkdirNode root p = .error .EACCES) :
    createDirectory root p = (root, POutcome.rejected (.code .ENOENT)) := by
  have hres := mkdirNode_eacces_resolve root p h
  have hstat : statKind root p = .error .ENOENT := by simp [statKind, hres]
  obtain ⟨f₂, hf₂⟩ : ∃ f₂, 2 * p.length + 2 = f₂ + 1 := ⟨2 * p.length + 1, by omega⟩
  unfold createDirectory
  rw [hf₂, mkdirp_stat_step f₂ root p .EACCES (by decide) h, hstat]
  rfl

/-- C2 amended witness: the concrete read-only root again. -/
theorem createDirectory_eacces_surfaces_enoent_witness :
    mkdirNode (Node.dir true []) ["y"] = .error .EACCES ∧
    createDirectory (Node.dir true []) ["y"] =
      (Node.dir true [], POutcome.rejected (.code .ENOENT)) :=
  ⟨rfl, createDirectory_eacces_surfaces_enoent (Node.dir true []) ["y"] rfl⟩

/-- C3 counterexample: with a regular file at f, creating f/c fails with the
raw ENOTDIR code propagated from the underlying calls, not with the
synthesized is-already-a-file conflict error the claim requires for a
conflict on an ancestor segment. -/
theorem createDirectory_ancestor_file_raw_error :
    resolveNoFollow (Node.dir false [("f", Node.file)]) ["f", "c"] = .error .ENOTDIR ∧
    createDirectory (Node.dir false [("f", Node.file)]) ["f", "c"] =
      (Node.dir false [("f", Node.file)], POutcome.rejected (.code .ENOTDIR)) ∧
    FsError.code .ENOTDIR ≠ FsError.alreadyFile ["f", "c"] :=
  ⟨rfl, rfl, by decide⟩

/-- C3 amended: when a regular file occupies p itself, createDirectory fails
with the synthesized conflict error; when a non-directory occupies a strict
ancestor segment (path resolution reports the ENOTDIR code), it fails with
that raw ENOTDIR code instead; in both cases the tree is left unchanged. -/
theorem createDirectory_nondir_conflict (root : Node) (p : List String) :
    (resolveNoFollow root p = .ok .file →
      createDirectory root p = (root, POutcome.rejected (.alreadyFile p))) ∧
    (resolveNoFollow root p = .error .ENOTDIR →
      createDirectory root p = (root, POutcome.rejected (.code .ENOTDIR))) := by
  constructor
  · intro h
    have hmk : mkdirNode root p = .error .EEXIST := mkdirNode_of_resolved root p .file h
    have hstat : statKind root p = .ok .file := by simp [statKind, h, nodeKind]
    obtain ⟨f₂, hf₂⟩ : ∃ f₂, 2 * p.length + 2 = f₂ + 1 := ⟨2 * p.length + 1, by omega⟩
    unfold createDirectory
    rw [hf₂, mkdirp_stat_step f₂ root p .EEXIST (by decide) hmk, hstat]
    rfl
  · intro h
    have hmk : mkdirNode root p = .error .ENOTDIR := mkdirNode_of_enotdir root p h
    have hstat : statKind root p = .error .ENOTDIR := by simp [statKind, h]
    obtain ⟨f₂, hf₂⟩ : ∃ f₂, 2 * p.length + 2 = f₂ + 1 := ⟨2 * p.length + 1, by omega⟩
    unfold createDirectory
    rw [hf₂, mkdirp_stat_step f₂ root p .ENOTDIR (by decide) hmk, hstat]
    rfl

/-- C3 amended witness: a file at f itself yields the synthesized error. -/
theorem createDirectory_nondir_conflict_witness :
    resolveNoFollow (Node.dir false [("f", Node.file)]) ["f"] = .ok Node.file ∧
    createDirectory (Node.dir false [("f", Node.file)]) ["f"] =
      (Node.dir false [("f", Node.file)], POutcome.rejected (.alreadyFile ["f"])) :=
  ⟨rfl, (createDirectory_nondir_conflict (Node.dir false [("f", Node.file)]) ["f"]).1 rfl⟩

/-- C4: the existence probe resolves true when the metadata query succeeds,
resolves false when it fails with the ENOENT code, and rejects with every
other query error instead of coercing it to false. -/
theorem existsPath_error_policy (root : Node) (p : List String) :
    (∀ nd, resolveNoFollow root p = .ok nd → existsPath root p = .resolved true) ∧
    (resolveNoFollow root p = .error .ENOENT → existsPath root p = .resolved false) ∧
    (∀ e, resolveNoFollow root p = .error e → e ≠ .ENOENT →
      existsPath root p = .rejected (.code e)) := by
  refine ⟨?_, ?_, ?_⟩
  · intro nd h
    simp [existsPath, h]
  · intro h
    simp [existsPath, h]
  · intro e h hne
    cases e with
    | ENOENT => exact absurd rfl hne
    | EEXIST => simp [existsPath, h]
    | ENOTDIR => simp [existsPath, h]
    | EACCES => simp [existsPath, h]

/-- C4 witness: a query failing with the ENOTDIR code is rejected, not
reported as false. -/
theorem existsPath_error_policy_witness :
    resolveNoFollow (Node.dir false [("f", Node.file)]) ["f", "x"] = .error .ENOTDIR ∧
    existsPath (Node.dir false [("f", Node.file)]) ["f", "x"] =
      .rejected (.code .ENOTDIR) :=
  ⟨rfl, (existsPath_error_policy (Node.dir false [("f", Node.file)]) ["f", "x"]).2.2
    .ENOTDIR rfl (by decide)⟩

/-- C5: the probe uses link-level metadata, so a dangling symbolic link at p
makes it resolve true, while the follow-links query would have reported the
ENOENT code. -/
theorem existsPath_dangling_symlink (root : Node) (p : List String)
    (h : resolveNoFollow root p = .ok .symlink) :
    existsPath root p = .resolved true ∧ statKind root p = .error .ENOENT :=
  ⟨by simp [existsPath, h], by simp [statKind, h]⟩

/-- C5 witness: a concrete dangling link. -/
theorem existsPath_dangling_symlink_witness :
    resolveNoFollow (Node.dir false [("lnk", Node.symlink)]) ["lnk"] = .ok Node.symlink ∧
    (existsPath (Node.dir false [("lnk", Node.symlink)]) ["lnk"] = .resolved true ∧
      statKind (Node.dir false [("lnk", Node.symlink)]) ["lnk"] = .error .ENOENT) :=
  ⟨rfl, existsPath_dangling_symlink (Node.dir false [("lnk", Node.symlink)]) ["lnk"] rfl⟩

/-- C6: createDirectory is idempotent on success: after a successful run, a
second run on the resulting state succeeds and returns that state
unchanged. -/
theorem createDirectory_idempotent (root root' : Node) (p : List String)
    (h : createDirectory root p = (root', POutcome.resolved ())) :
    createDirectory root' p = (root', POutcome.resolved ()) := by
  have h1 := (createDirectory_resolved_iff root p root').mp h
  have h2 : mkdirp (2 * p.length + 2) root' p = (root', none) :=
    mkdirp_idem (2 * p.length + 2) (2 * p.length + 2) root p root' h1 (by omega)
  exact (createDirectory_resolved_iff root' p root').mpr h2

/-- C6 witness: creating a twice from an empty root. -/
theorem createDirectory_idempotent_witness :
    createDirectory (Node.dir false []) ["a"] =
      (Node.dir false [("a", Node.dir false [])], POutcome.resolved ()) ∧
    createDirectory (Node.dir false [("a", Node.dir false [])]) ["a"] =
      (Node.dir false [("a", Node.dir false [])], POutcome.resolved ()) :=
  ⟨rfl, createDirectory_idempotent (Node.dir false [])
    (Node.dir false [("a", Node.dir false [])]) ["a"] rfl⟩

/-- C7: the exported delete operation delegates entirely to the external
recursive-delete utility, returning its state and settling exactly as it
reports; on a non-root path the target and everything beneath it are gone
afterwards, and entries not below the target keep their kind. -/
theorem del_delegates_removeRecursively (root : Node) (p : List String) :
    (del root p).1 = (removeRecursively root p).1 ∧
    ((del root p).2 = POutcome.resolved () ↔ (removeRecursively root p).2 = none) ∧
    (p ≠ [] → ∀ q r, q = p ++ r → entryAt (del root p).1 q = none) ∧
    (∀ q, (∀ r, p ++ r ≠ q) → kindAt (del root p).1 q = kindAt root q) := by
  refine ⟨rfl, ?_, ?_, ?_⟩
  · simp [del, removeRecursively, settle]
  · intro hp q r hq
    subst hq
    exact entryAt_append_none _ p r (removeAt_gone p root hp)
  · intro q hq
    exact removeAt_frame p root q hq

/-- C7 witness: deleting directory d removes its subtree and leaves the
sibling file k untouched. -/
theorem del_delegates_removeRecursively_witness :
    entryAt (del (Node.dir false [("d", Node.dir false [("x", Node.file)]),
      ("k", Node.file)]) ["d"]).1 ["d", "x"] = none ∧
    kindAt (del (Node.dir false [("d", Node.dir false [("x", Node.file)]),
      ("k", Node.file)]) ["d"]).1 ["k"] =
      kindAt (Node.dir false [("d", Node.dir false [("x", Node.file)]),
        ("k", Node.file)]) ["k"] :=
  ⟨(del_delegates_removeRecursively _ ["d"]).2.2.1 (List.cons_ne_nil _ _)
      ["d", "x"] ["x"] rfl,
    (del_delegates_removeRecursively _ ["d"]).2.2.2 ["k"] (by
      intro r hr
      injection hr with h1 h2
      exact absurd h1 (by decide))⟩

/-- C8: writeTextFile dispatches to the append primitive exactly when the
effective flag string starts with the append letter, and fills in the utf8
encoding and the write mode when the respective argument is omitted. -/
theorem writeTextFile_dispatch (enc fl mode : JsStr) :
    ((writeTextFile enc fl mode).op = .appendFile ↔
      (writeTextFile enc fl mode).flags.data.head? = some 'a') ∧
    ((writeTextFile enc JsStr.undef mode).flags = "w" ∧
      (writeTextFile enc JsStr.undef mode).op = .writeFile) ∧
    (writeTextFile JsStr.undef fl mode).encoding = JsStr.str "utf8" := by
  refine ⟨?_, ⟨?_, ?_⟩, ?_⟩
  · cases fl with
    | undef => simp [writeTextFile]
    | null => simp [writeTextFile]
    | str s =>
      by_cases h : s.data.head? = some 'a'
      · simp [writeTextFile, h]
      · simp [writeTextFile, h]
  · simp [writeTextFile]
  · simp [writeTextFile]
  · simp [writeTextFile]

/-- C8 witness: an explicit append-read flag string dispatches to the append
primitive. -/
theorem writeTextFile_dispatch_witness :
    (writeTextFile JsStr.null (JsStr.str "a+") JsStr.undef).flags.data.head? = some 'a' ∧
    (writeTextFile JsStr.null (JsStr.str "a+") JsStr.undef).op = WriteDispatch.appendFile :=
  ⟨by decide,
    (writeTextFile_dispatch JsStr.null (JsStr.str "a+") JsStr.undef).1.mpr (by decide)⟩

/-- C9 evidence of the defect: on a successful callback with a resolver
supplied, the newer promisify adapter resolves with the resolver output, but
the older thunk adapter leaves the promise forever pending instead of
resolving it, so not every wrapped call settles its promise. -/
theorem thunk_resolver_never_settles :
    promisify Nat (some 7) none 0 = POutcome.resolved 7 ∧
    thunk Nat (some 7) none 0 = POutcome.pending ∧
    (POutcome.pending : POutcome Nat) ≠ POutcome.resolved 7 :=
  ⟨rfl, rfl, by decide⟩

/-- C10: the access wrapper never rejects and never stays pending: it
resolves true when the underlying check reports no error and false on every
reported error, whatever its code. -/
theorem access_never_rejects (err : Option FsError) :
    (∀ e, access err ≠ POutcome.rejected e) ∧
    access err ≠ POutcome.pending ∧
    (err = none → access err = POutcome.resolved true) ∧
    (∀ e, err = some e → access err = POutcome.resolved false) := by
  cases err with
  | none =>
    refine ⟨?_, ?_, ?_, ?_⟩
    · intro e h
      simp [access] at h
    · simp [access]
    · intro _
      rfl
    · intro e h
      simp at h
  | some e0 =>
    refine ⟨?_, ?_, ?_, ?_⟩
    · intro e h
      simp [access] at h
    · simp [access]
    · intro h
      simp at h
    · intro e h
      rfl

/-- C10 witness: a permission-denied check outcome resolves false rather
than rejecting. -/
theorem access_never_rejects_witness :
    access (some (FsError.code ErrCode.EACCES)) = POutcome.resolved false :=
  (access_never_rejects (some (FsError.code ErrCode.EACCES))).2.2.2
    (FsError.code ErrCode.EACCES) rfl

end AsyncFile
